import Mathlib

/-!
Verification of the recurring-transaction detection core of the
Personal-Finance-Dashboard repository.

The embedding follows `src/lib/plaid.ts` (merchant normalizer, utility
predicate, two-pass detector) and `src/app/(app)/recurring/page.tsx`
(override composer).  Amounts are modelled as rational numbers; JS string
and date handling is embedded over `List Char` and civil-date arithmetic.

The arithmetic wrappers `qadd`, `qsub`, `qmul`, `qdiv`, `qabs` compute the
same values as the standard `ℚ` operations (bridge lemmas below) but are
written through `mkRat` / `Rat.divInt`, which the kernel can evaluate on
concrete inputs.
-/

/-- Addition on `ℚ`, written so the kernel can reduce it. -/
def qadd (a b : ℚ) : ℚ := mkRat (a.num * b.den + b.num * a.den) (a.den * b.den)

/-- Subtraction on `ℚ`, written so the kernel can reduce it. -/
def qsub (a b : ℚ) : ℚ := mkRat (a.num * b.den - b.num * a.den) (a.den * b.den)

/-- Multiplication on `ℚ`, written so the kernel can reduce it. -/
def qmul (a b : ℚ) : ℚ := mkRat (a.num * b.num) (a.den * b.den)

/-- Division on `ℚ` (with `x / 0 = 0`), written so the kernel can reduce it. -/
def qdiv (a b : ℚ) : ℚ := Rat.divInt (a.num * b.den) (a.den * b.num)

/-- Absolute value on `ℚ`, written so the kernel can reduce it. -/
def qabs (a : ℚ) : ℚ := if a < 0 then -a else a

theorem qadd_eq (a b : ℚ) : qadd a b = a + b := by
  rw [qadd, Rat.mkRat_eq_divInt, Rat.divInt_eq_div]
  push_cast
  conv_rhs => rw [← Rat.num_div_den a, ← Rat.num_div_den b]
  have ha : (a.den : ℚ) ≠ 0 := by positivity
  have hb : (b.den : ℚ) ≠ 0 := by positivity
  field_simp

theorem qsub_eq (a b : ℚ) : qsub a b = a - b := by
  rw [qsub, Rat.mkRat_eq_divInt, Rat.divInt_eq_div]
  push_cast
  conv_rhs => rw [← Rat.num_div_den a, ← Rat.num_div_den b]
  have ha : (a.den : ℚ) ≠ 0 := by positivity
  have hb : (b.den : ℚ) ≠ 0 := by positivity
  field_simp
  ring

theorem qmul_eq (a b : ℚ) : qmul a b = a * b := by
  rw [qmul, Rat.mkRat_eq_divInt, Rat.divInt_eq_div]
  push_cast
  conv_rhs => rw [← Rat.num_div_den a, ← Rat.num_div_den b]
  have ha : (a.den : ℚ) ≠ 0 := by positivity
  have hb : (b.den : ℚ) ≠ 0 := by positivity
  field_simp

theorem qdiv_eq (a b : ℚ) : qdiv a b = a / b := by
  rw [qdiv, Rat.divInt_eq_div]
  by_cases hbz : b = 0
  · subst hbz
    simp
  · have hbn : (b.num : ℚ) ≠ 0 := by
      exact_mod_cast Rat.num_ne_zero.mpr hbz
    push_cast
    conv_rhs => rw [← Rat.num_div_den a, ← Rat.num_div_den b]
    have ha : (a.den : ℚ) ≠ 0 := by positivity
    have hb : (b.den : ℚ) ≠ 0 := by positivity
    rw [div_div_div_comm]
    field_simp
    left
    ring

theorem qabs_eq (a : ℚ) : qabs a = |a| := by
  rw [qabs]
  by_cases h : a < 0
  · simp [h, abs_of_neg h]
  · simp [h, abs_of_nonneg (le_of_not_lt h)]

/-! ## JS string model

The normalizer in `src/lib/plaid.ts` chains five JS `String.replace`
operations.  They are embedded over `List Char`; `\s` is modelled by the
ASCII whitespace class and `\w` (for the `\b` word boundary) by
`[A-Za-z0-9_]`, exactly the classes the source's non-unicode regexes use. -/

/-- The JS `\s` class, restricted to the ASCII range. -/
def isJsSpace (c : Char) : Bool :=
  c = ' ' || c = '\t' || c = '\n' || c = '\r' || c = Char.ofNat 11 || c = Char.ofNat 12

/-- The JS `\w` class used by the `\b` word boundary: `[A-Za-z0-9_]`. -/
def isWordChar (c : Char) : Bool :=
  ('a' ≤ c && c ≤ 'z') || ('A' ≤ c && c ≤ 'Z') || ('0' ≤ c && c ≤ '9') || c = '_'

/-- Characters kept by the regex `[^a-z0-9\s]` replacement (step 4). -/
def isKeptChar (c : Char) : Bool :=
  ('a' ≤ c && c ≤ 'z') || ('0' ≤ c && c ≤ '9') || isJsSpace c

/-- Step 1 of the normalizer: `toLowerCase()`. -/
def lowerStep (l : List Char) : List Char := l.map Char.toLower

/-- Step 2 of the normalizer: `replace(/[*#@]/g, " ")`. -/
def sepStep (l : List Char) : List Char :=
  l.map fun c => if c = '*' || c = '#' || c = '@' then ' ' else c

/-- Longest leading run of ASCII digits. -/
def takeDigits : List Char → List Char
  | [] => []
  | c :: cs => if c.isDigit then c :: takeDigits cs else []

/-- Remainder after the longest leading run of ASCII digits. -/
def dropDigits : List Char → List Char
  | [] => []
  | c :: cs => if c.isDigit then dropDigits cs else c :: cs

/-- Step 3 of the normalizer: `replace(/\b\d{5,}\b/g, "")`.  A maximal digit
run is removed when it has length at least 5 and neither neighbour in the
original string is a `\w` character (the `\b` conditions).  `prevWord`
records whether the previously scanned character was a `\w` character; the
`fuel` argument only bounds the recursion and is always sufficient when it
starts at the list length. -/
def stripRunsAux : Nat → Bool → List Char → List Char
  | 0, _, l => l
  | fuel + 1, prevWord, l =>
    match l with
    | [] => []
    | c :: cs =>
      if c.isDigit then
        let run := c :: takeDigits cs
        let rest := dropDigits cs
        let rightWord := match rest with
          | [] => false
          | d :: _ => isWordChar d
        if 5 ≤ run.length && !prevWord && !rightWord then
          stripRunsAux fuel true rest
        else
          run ++ stripRunsAux fuel true rest
      else
        c :: stripRunsAux fuel (isWordChar c) cs

/-- Step 3 of the normalizer, at full fuel. -/
def refStep (l : List Char) : List Char := stripRunsAux l.length false l

/-- Step 4 of the normalizer: `replace(/[^a-z0-9\s]/g, " ")`.  Note the
source replaces the matched characters with a space. -/
def charStep (l : List Char) : List Char :=
  l.map fun c => if isKeptChar c then c else ' '

/-- Whitespace collapsing, `replace(/\s+/g, " ")`: each maximal whitespace
run becomes a single space. -/
def collapseWs : List Char → List Char
  | [] => []
  | [c] => if isJsSpace c then [' '] else [c]
  | c :: d :: rest =>
    if isJsSpace c then
      if isJsSpace d then collapseWs (d :: rest)
      else ' ' :: collapseWs (d :: rest)
    else c :: collapseWs (d :: rest)

/-- JS `trim()`: removes whitespace from both ends. -/
def trimWs (l : List Char) : List Char :=
  ((l.dropWhile isJsSpace).reverse.dropWhile isJsSpace).reverse

/-- Step 5 of the normalizer: `replace(/\s+/g, " ").trim()`. -/
def wsStep (l : List Char) : List Char := trimWs (collapseWs l)

/-- `normalizeMerchant` from `src/lib/plaid.ts`: lowercase, replace
`* # @` with spaces, strip standalone digit runs of length at least 5,
replace the remaining special characters with spaces, collapse and trim
whitespace. -/
def normalizeMerchant (s : String) : String :=
  String.mk (wsStep (charStep (refStep (sepStep (lowerStep s.data)))))

/-- JS `trimEnd()`: removes trailing whitespace. -/
def trimEndWs (l : List Char) : List Char :=
  (l.reverse.dropWhile isJsSpace).reverse

/-- `merchantPrefixKey` from `src/lib/plaid.ts`: first 8 characters of the
normalized name, right-trimmed. -/
def merchantPrefixKey (s : String) : String :=
  String.mk (trimEndWs (s.data.take 8))

/-- Does `needle` occur at the head of `hay`? -/
def prefixAt : List Char → List Char → Bool
  | [], _ => true
  | _ :: _, [] => false
  | a :: as, b :: bs => a = b && prefixAt as bs

/-- JS `String.includes`: does `needle` occur anywhere in `hay`? -/
def hasSub : List Char → List Char → Bool
  | [], needle => needle.isEmpty
  | c :: t, needle => prefixAt needle (c :: t) || hasSub t needle

/-- JS `a.includes(b)` on strings. -/
def strContains (a b : String) : Bool := hasSub a.data b.data

/-- JS `toLowerCase()` on strings. -/
def lowerStr (s : String) : String := String.mk (lowerStep s.data)

/-- `UTILITY_KEYWORDS` from `src/lib/plaid.ts`. -/
def utilityKeywords : List String :=
  ["utilities", "electric", "electricity", "gas", "natural gas",
   "water", "internet", "broadband", "cable", "sewer", "trash", "garbage",
   "telecom", "telephone"]

/-! ## Date model

`daysBetween` and `addDays` in `src/lib/plaid.ts` parse `YYYY-MM-DD`
strings into JS dates and work in whole days (the strings carry no time
component).  They are embedded through the standard civil-calendar
day-number conversion. -/

/-- Digits of a date field to a number (fields are well-formed `YYYY`,
`MM`, `DD` runs). -/
def digitsToNat (l : List Char) : Nat :=
  l.foldl (fun n c => n * 10 + (c.toNat - 48)) 0

/-- Year field of a `YYYY-MM-DD` string. -/
def dateY (s : String) : Int := digitsToNat (s.data.take 4)

/-- Month field of a `YYYY-MM-DD` string. -/
def dateM (s : String) : Int := digitsToNat ((s.data.drop 5).take 2)

/-- Day field of a `YYYY-MM-DD` string. -/
def dateD (s : String) : Int := digitsToNat ((s.data.drop 8).take 2)

/-- Civil date to day number (days since 1970-01-01). -/
def daysFromCivil (y m d : Int) : Int :=
  let y2 := if m ≤ 2 then y - 1 else y
  let era := (if 0 ≤ y2 then y2 else y2 - 399) / 400
  let yoe := y2 - era * 400
  let mp := (m + 9) % 12
  let doy := (153 * mp + 2) / 5 + d - 1
  let doe := yoe * 365 + yoe / 4 - yoe / 100 + doy
  era * 146097 + doe - 719468

/-- Day number back to a civil date. -/
def civilFromDays (z0 : Int) : Int × Int × Int :=
  let z := z0 + 719468
  let era := (if 0 ≤ z then z else z - 146096) / 146097
  let doe := z - era * 146097
  let yoe := (doe - doe / 1460 + doe / 36524 - doe / 146096) / 365
  let y := yoe + era * 400
  let doy := doe - (365 * yoe + yoe / 4 - yoe / 100)
  let mp := (5 * doy + 2) / 153
  let d := doy - (153 * mp + 2) / 5 + 1
  let m := if mp < 10 then mp + 3 else mp - 9
  (if m ≤ 2 then y + 1 else y, m, d)

/-- Day number of a `YYYY-MM-DD` string. -/
def epochDays (s : String) : Int := daysFromCivil (dateY s) (dateM s) (dateD s)

/-- `daysBetween` from `src/lib/plaid.ts`: absolute day distance between
two dates. -/
def daysBetween (a b : String) : ℚ := ((epochDays b - epochDays a).natAbs : ℚ)

/-- Decimal digits of a natural number (the fuel always suffices when it
starts above the digit count). -/
def natDigits : Nat → Nat → List Char
  | 0, _ => []
  | fuel + 1, n =>
    if n < 10 then [Char.ofNat (48 + n)]
    else natDigits fuel (n / 10) ++ [Char.ofNat (48 + n % 10)]

/-- A nonnegative integer, zero-padded to the given width. -/
def padNum (width : Nat) (i : Int) : List Char :=
  let ds := natDigits 20 i.toNat
  List.replicate (width - ds.length) '0' ++ ds

/-- A civil date printed as `YYYY-MM-DD` (as `toISOString().split("T")[0]`). -/
def formatDate (ymd : Int × Int × Int) : String :=
  String.mk (padNum 4 ymd.1 ++ '-' :: padNum 2 ymd.2.1 ++ '-' :: padNum 2 ymd.2.2)

/-- `addDays` from `src/lib/plaid.ts`: shift a date by a number of days. -/
def addDays (s : String) (days : Int) : String :=
  formatDate (civilFromDays (epochDays s + days))

/-! ## Data model -/

/-- The `transactions.type` column (`src/lib/database.types.ts`). -/
inductive TxType
  | income
  | expense
  | transfer
deriving DecidableEq

/-- `DbTransaction` rows (`src/lib/database.types.ts`). -/
structure DbTransaction where
  id : String
  date : String
  account_id : String
  description : String
  category : String
  subcategory : String
  amount : ℚ
  type : TxType
deriving DecidableEq

/-- Placeholder transaction used only as the default of `List.getLastD`
on lists that the guards have already shown nonempty. -/
def dummyTx : DbTransaction :=
  ⟨"", "", "", "", "", "", 0, TxType.expense⟩

/-- `isUtility` from `src/lib/plaid.ts`: the category or subcategory
(lower-cased) contains one of the utility keywords. -/
def isUtility (tx : DbTransaction) : Bool :=
  utilityKeywords.any fun kw =>
    strContains (lowerStr tx.subcategory) kw || strContains (lowerStr tx.category) kw

/-- The `t.type !== "income"` filter applied by the detector. -/
def isExpenseTx (t : DbTransaction) : Bool :=
  match t.type with
  | TxType.income => false
  | _ => true

/-- `RecurringFrequency` (`src/lib/plaid.ts`). -/
inductive RecurringFrequency
  | weekly
  | biweekly
  | monthly
deriving DecidableEq

/-- `RecurringTransaction` output records (`src/lib/plaid.ts`). -/
structure RecurringTransaction where
  merchant : String
  averageAmount : ℚ
  frequency : RecurringFrequency
  intervalDays : Int
  lastDate : String
  nextPredictedDate : String
  monthlyAmount : ℚ
  occurrences : Nat
  category : Option String
  subcategory : Option String
deriving DecidableEq

/-! ## Sorting

JS `Array.prototype.sort` is a stable sort; a stable sort is uniquely
determined by its comparator, so the embedding uses Mathlib's (stable)
insertion sort with the corresponding relations. -/

/-- Lexicographic comparison of character lists by code point, the effect
of `localeCompare` on ASCII date strings. -/
def listLe : List Char → List Char → Bool
  | [], _ => true
  | _ :: _, [] => false
  | a :: as, b :: bs =>
    if a.toNat < b.toNat then true
    else if b.toNat < a.toNat then false
    else listLe as bs

/-- `a.date.localeCompare(b.date)`-ascending as a relation. -/
def dateOrd (a b : DbTransaction) : Prop := listLe a.date.data b.date.data = true

instance : DecidableRel dateOrd := fun a b =>
  inferInstanceAs (Decidable (listLe a.date.data b.date.data = true))

theorem listLe_total (a b : List Char) : listLe a b = true ∨ listLe b a = true := by
  induction a generalizing b with
  | nil => left; rfl
  | cons x xs ih =>
    cases b with
    | nil => right; rfl
    | cons y ys =>
      by_cases h1 : x.toNat < y.toNat
      · left; simp [listLe, h1]
      · by_cases h2 : y.toNat < x.toNat
        · right; simp [listLe, h2]
        · rcases ih ys with h | h
          · left; simp [listLe, h1, h2, h]
          · right; simp [listLe, h1, h2, h]

theorem listLe_trans {a b c : List Char} (hab : listLe a b = true)
    (hbc : listLe b c = true) : listLe a c = true := by
  induction a generalizing b c with
  | nil => rfl
  | cons x xs ih =>
    cases b with
    | nil => simp [listLe] at hab
    | cons y ys =>
      cases c with
      | nil => simp [listLe] at hbc
      | cons z zs =>
        simp only [listLe] at hab hbc ⊢
        split_ifs at hab hbc ⊢ <;>
          first
          | rfl
          | exact absurd hab (by decide)
          | exact absurd hbc (by decide)
          | omega
          | exact ih hab hbc

instance : IsTotal DbTransaction dateOrd :=
  ⟨fun a b => listLe_total a.date.data b.date.data⟩

instance : IsTrans DbTransaction dateOrd :=
  ⟨fun _ _ _ hab hbc => listLe_trans hab hbc⟩

/-- The chronological sort `[...txns].sort((a, b) => a.date.localeCompare(b.date))`. -/
def sortByDate (txns : List DbTransaction) : List DbTransaction :=
  List.insertionSort dateOrd txns

/-- The final `sort((a, b) => b.monthlyAmount - a.monthlyAmount)` as a relation. -/
def amtOrd (a b : RecurringTransaction) : Prop := b.monthlyAmount ≤ a.monthlyAmount

instance : DecidableRel amtOrd := fun a b =>
  inferInstanceAs (Decidable (b.monthlyAmount ≤ a.monthlyAmount))

instance : IsTotal RecurringTransaction amtOrd :=
  ⟨fun a b => le_total b.monthlyAmount a.monthlyAmount⟩

instance : IsTrans RecurringTransaction amtOrd :=
  ⟨fun _ _ _ hab hbc => le_trans hbc hab⟩

/-- Sort descending by `monthlyAmount`. -/
def sortByMonthly (rs : List RecurringTransaction) : List RecurringTransaction :=
  List.insertionSort amtOrd rs

/-! ## Detector helpers -/

/-- `amounts.reduce((a, b) => a + b, 0)`. -/
def sumQ (l : List ℚ) : ℚ := l.foldl qadd 0

/-- The mean used by the detector: sum divided by length. -/
def meanQ (l : List ℚ) : ℚ := qdiv (sumQ l) (l.length : ℚ)

/-- JS `Math.round` for the nonnegative means produced here:
round half up, i.e. the floor of `q + 1/2`. -/
def jsRound (q : ℚ) : Int := Rat.floor (qadd q (mkRat 1 2))

/-- First-seen-order deduplication, the contents of a JS `Set`/`Map` key
iteration. -/
def dedupFirst (l : List String) : List String :=
  l.foldl (fun acc v => if v ∈ acc then acc else acc ++ [v]) []

/-- `mostCommon` from `src/lib/plaid.ts`: the most frequent value; on ties
the first-seen value wins (JS `Map` preserves insertion order and
`Array.sort` is stable). -/
def mostCommon (l : List String) : Option String :=
  (dedupFirst l).foldl
    (fun best k =>
      match best with
      | none => some k
      | some b => if l.count b < l.count k then some k else best)
    none

/-- `distinctMonths` from `src/lib/plaid.ts`: number of distinct `YYYY-MM`
prefixes. -/
def distinctMonths (txns : List DbTransaction) : Nat :=
  (dedupFirst (txns.map fun t => String.mk (t.date.data.take 7))).length

/-- Consecutive day gaps of a chronologically sorted group. -/
def consecGaps : List DbTransaction → List ℚ
  | [] => []
  | [_] => []
  | a :: b :: rest => daysBetween a.date b.date :: consecGaps (b :: rest)

/-- `detectFrequency` from `src/lib/plaid.ts`.  The three mean bands
`[4, 10]`, `[11, 17]`, `[25, 35]` are pairwise disjoint, so the source's
three sequential `if mean in band / if consistent return` blocks are
equivalent to this conditional chain. -/
def detectFrequency (gaps : List ℚ) : Option (RecurringFrequency × Int) :=
  if gaps.length = 0 then none
  else
    let mean := meanQ gaps
    if 4 ≤ mean ∧ mean ≤ 10 ∧ ∀ g ∈ gaps, qabs (qsub g mean) ≤ 3 then
      some (RecurringFrequency.weekly, jsRound mean)
    else if 11 ≤ mean ∧ mean ≤ 17 ∧ ∀ g ∈ gaps, qabs (qsub g mean) ≤ 5 then
      some (RecurringFrequency.biweekly, jsRound mean)
    else if 25 ≤ mean ∧ mean ≤ 35 ∧ ∀ g ∈ gaps, qabs (qsub g mean) ≤ 7 then
      some (RecurringFrequency.monthly, jsRound mean)
    else none

/-! ## Grouping (JS `Map` with push per key) -/

/-- Append a transaction to the group of key `k`, creating the group at the
end when the key is new — JS `Map` insertion-order semantics. -/
def upsertGroup (gs : List (String × List DbTransaction)) (k : String)
    (tx : DbTransaction) : List (String × List DbTransaction) :=
  match gs with
  | [] => [(k, [tx])]
  | (k2, g) :: rest =>
    if k2 = k then (k2, g ++ [tx]) :: rest
    else (k2, g) :: upsertGroup rest k tx

/-- Group a transaction list by `keyOf`, skipping transactions with
`skip`, preserving first-seen key order and per-key arrival order. -/
def groupsBy (skip : DbTransaction → Bool) (keyOf : DbTransaction → String)
    (txs : List DbTransaction) : List (String × List DbTransaction) :=
  txs.foldl (fun gs tx => if skip tx then gs else upsertGroup gs (keyOf tx) tx) []

/-- Keys whose normalized form is shorter than 3 characters are skipped by
both passes. -/
def shortNorm (t : DbTransaction) : Bool :=
  decide ((normalizeMerchant t.description).length < 3)

/-- Pass-1 grouping key: the exact normalized merchant name. -/
def pass1Key (t : DbTransaction) : String := normalizeMerchant t.description

/-- Pass-2 grouping key: the 8-character merchant name prefix. -/
def pass2Key (t : DbTransaction) : String :=
  merchantPrefixKey (normalizeMerchant t.description)

/-! ## Pass 1 -/

/-- The per-transaction deviation test `|a - mean| / mean <= threshold`. -/
def varianceOK (amounts : List ℚ) (mean θ : ℚ) : Prop :=
  ∀ a ∈ amounts, qdiv (qabs (qsub a mean)) mean ≤ θ

instance (amounts : List ℚ) (mean θ : ℚ) : Decidable (varianceOK amounts mean θ) :=
  inferInstanceAs (Decidable (∀ a ∈ amounts, qdiv (qabs (qsub a mean)) mean ≤ θ))

/-- The tail of a Pass-1 group after the amount guards: gap computation,
frequency classification and record construction (`src/lib/plaid.ts`,
lines 153-186). -/
def group1Tail (txns sorted : List DbTransaction) (meanAmount : ℚ) :
    Option RecurringTransaction :=
  match detectFrequency (consecGaps sorted) with
  | none => none
  | some (frequency, intervalDays) =>
    let lastTx := sorted.getLastD dummyTx
    let monthlyMultiplier : ℚ :=
      match frequency with
      | RecurringFrequency.weekly => mkRat 433 100
      | RecurringFrequency.biweekly => mkRat 217 100
      | RecurringFrequency.monthly => 1
    some
      { merchant := lastTx.description
        averageAmount := meanAmount
        frequency := frequency
        intervalDays := intervalDays
        lastDate := lastTx.date
        nextPredictedDate := addDays lastTx.date intervalDays
        monthlyAmount := qmul meanAmount monthlyMultiplier
        occurrences := txns.length
        category := mostCommon ((txns.map fun t => t.category).filter fun s => !(s == ""))
        subcategory := mostCommon ((txns.map fun t => t.subcategory).filter fun s => !(s == "")) }

/-- One Pass-1 group (`src/lib/plaid.ts`, lines 136-186): at least 3
occurrences, mean at least 0.01, per-transaction variance within the
threshold (45% when any member is a utility, else 20%), then a frequency
classification. -/
def processGroup1 (txns : List DbTransaction) : Option RecurringTransaction :=
  if txns.length < 3 then none
  else
    let sorted := sortByDate txns
    let amounts := sorted.map fun t => qabs t.amount
    let meanAmount := meanQ amounts
    if meanAmount < mkRat 1 100 then none
    else
      let varianceThreshold : ℚ := if txns.any isUtility then mkRat 45 100 else mkRat 20 100
      if varianceOK amounts meanAmount varianceThreshold then
        group1Tail txns sorted meanAmount
      else none

/-- The Pass-1 loop: emitted records plus the ids captured by emitting
groups. -/
def pass1 (groups : List (String × List DbTransaction)) :
    List RecurringTransaction × List String :=
  groups.foldl
    (fun acc kg =>
      match processGroup1 kg.2 with
      | none => acc
      | some r => (acc.1 ++ [r], acc.2 ++ kg.2.map fun t => t.id))
    ([], [])

/-! ## Pass 2 -/

/-- One Pass-2 group (`src/lib/plaid.ts`, lines 209-247): at least 2
members spanning at least 2 distinct months, mean at least 0.01, flat 45%
variance, unconditional monthly classification with a 30-day interval. -/
def processGroup2 (txns : List DbTransaction) : Option RecurringTransaction :=
  if txns.length < 2 then none
  else
    let sorted := sortByDate txns
    if distinctMonths sorted < 2 then none
    else
      let amounts := sorted.map fun t => qabs t.amount
      let meanAmount := meanQ amounts
      if meanAmount < mkRat 1 100 then none
      else
        if varianceOK amounts meanAmount (mkRat 45 100) then
          let lastTx := sorted.getLastD dummyTx
          some
            { merchant := lastTx.description
              averageAmount := meanAmount
              frequency := RecurringFrequency.monthly
              intervalDays := 30
              lastDate := lastTx.date
              nextPredictedDate := addDays lastTx.date 30
              monthlyAmount := meanAmount
              occurrences := txns.length
              category := mostCommon ((txns.map fun t => t.category).filter fun s => !(s == ""))
              subcategory := mostCommon ((txns.map fun t => t.subcategory).filter fun s => !(s == "")) }
        else none

/-- `detectRecurringTransactions` from `src/lib/plaid.ts`: Pass 1 over
exact normalized names, Pass 2 over the prefix-grouped utility
transactions not captured by Pass 1, concatenated and sorted descending by
`monthlyAmount`. -/
def detectRecurringTransactions (transactions : List DbTransaction) :
    List RecurringTransaction :=
  let expenses := transactions.filter isExpenseTx
  let p1 := pass1 (groupsBy shortNorm pass1Key expenses)
  let utilityTxns := expenses.filter fun t => isUtility t && !(decide (t.id ∈ p1.2))
  let results2 := (groupsBy shortNorm pass2Key utilityTxns).filterMap fun kg => processGroup2 kg.2
  sortByMonthly (p1.1 ++ results2)

/-! ## Override composer (`src/app/(app)/recurring/page.tsx`)

The page consumes `toMerchantKey`, `buildManualRecurring` and a
`merchantKey` field from `lib/recurring.ts`, which is not part of the
sources; those three pieces are modelled from the spec below, the
composition logic itself follows `page.tsx`. -/

/-- Modelled from the spec: the shipped `RecurringTransaction` of
`lib/recurring.ts` additionally carries `merchantKey`, "the normalized key
used for matching overrides and de-duplication" (spec section 3).  It is
modelled as a detection record paired with its key. -/
structure KeyedRecurring where
  merchantKey : String
  entry : RecurringTransaction
deriving DecidableEq

/-- `recurring_overrides` rows
(`src/supabase/migrations/add_recurring_overrides_table.sql`). -/
structure RecurringOverride where
  merchant_key : String
  is_recurring : Bool
deriving DecidableEq

/-- Modelled from the spec: `toMerchantKey` of `lib/recurring.ts` is absent
from the sources; per the migration comment, `merchant_key` "is the
normalized merchant description", i.e. the merchant normalizer. -/
def toMerchantKey (description : String) : String := normalizeMerchant description

/-- Modelled from the spec: `buildManualRecurring` of `lib/recurring.ts` is
absent from the sources.  Per spec section 4.4 it synthesizes a record from
all matching transactions with the section 4.2 field-derivation rules,
frequency defaulted to `monthly` (hence a 30-day interval and
`monthlyAmount` equal to the mean amount) and `occurrences` the number of
matching transactions. -/
def buildManualRecurring (matching : List DbTransaction) (key : String) :
    KeyedRecurring :=
  let sorted := sortByDate matching
  let amounts := sorted.map fun t => qabs t.amount
  let meanAmount := meanQ amounts
  let lastTx := sorted.getLastD dummyTx
  { merchantKey := key
    entry :=
      { merchant := lastTx.description
        averageAmount := meanAmount
        frequency := RecurringFrequency.monthly
        intervalDays := 30
        lastDate := lastTx.date
        nextPredictedDate := addDays lastTx.date 30
        monthlyAmount := meanAmount
        occurrences := matching.length
        category := mostCommon ((matching.map fun t => t.category).filter fun s => !(s == ""))
        subcategory := mostCommon ((matching.map fun t => t.subcategory).filter fun s => !(s == "")) } }

/-- The page's final `sort((a, b) => b.monthlyAmount - a.monthlyAmount)` as
a relation on keyed records. -/
def keyedOrd (a b : KeyedRecurring) : Prop :=
  b.entry.monthlyAmount ≤ a.entry.monthlyAmount

instance : DecidableRel keyedOrd := fun a b =>
  inferInstanceAs (Decidable (b.entry.monthlyAmount ≤ a.entry.monthlyAmount))

instance : IsTotal KeyedRecurring keyedOrd :=
  ⟨fun a b => le_total b.entry.monthlyAmount a.entry.monthlyAmount⟩

instance : IsTrans KeyedRecurring keyedOrd :=
  ⟨fun _ _ _ hab hbc => le_trans hbc hab⟩

/-- Sort keyed records descending by `monthlyAmount`. -/
def sortKeyed (rs : List KeyedRecurring) : List KeyedRecurring :=
  List.insertionSort keyedOrd rs

/-- Force-excludes (`page.tsx`, lines 32-36): drop every detected entry
whose key carries an `is_recurring = false` override. -/
def applyExcludes (detected : List KeyedRecurring)
    (overrides : List RecurringOverride) : List KeyedRecurring :=
  let excludedKeys := (overrides.filter fun o => !o.is_recurring).map fun o => o.merchant_key
  detected.filter fun r => !(decide (r.merchantKey ∈ excludedKeys))

/-- The body of the force-include loop (`page.tsx`, lines 40-47) for a
single `is_recurring = true` override: skip keys already present, collect
the matching non-income transactions, synthesize unless empty. -/
def includeStep (transactions : List DbTransaction) (existingKeys : List String)
    (o : RecurringOverride) : Option KeyedRecurring :=
  if o.merchant_key ∈ existingKeys then none
  else
    let matching := transactions.filter fun tx =>
      isExpenseTx tx && decide (toMerchantKey tx.description = o.merchant_key)
    if matching.length = 0 then none
    else some (buildManualRecurring matching o.merchant_key)

/-- Force-includes (`page.tsx`, lines 38-47): `existingKeys` is computed
once from the post-exclusion list, then each `is_recurring = true` override
may push one synthesized record. -/
def applyIncludes (recurring : List KeyedRecurring)
    (overrides : List RecurringOverride) (transactions : List DbTransaction) :
    List KeyedRecurring :=
  let existingKeys := recurring.map fun r => r.merchantKey
  (overrides.filter fun o => o.is_recurring).foldl
    (fun acc o =>
      match includeStep transactions existingKeys o with
      | none => acc
      | some r => acc ++ [r])
    recurring

/-- The override composition of `page.tsx`: force-excludes, then
force-includes, then the final re-sort. -/
def applyOverrides (detected : List KeyedRecurring)
    (overrides : List RecurringOverride) (transactions : List DbTransaction) :
    List KeyedRecurring :=
  sortKeyed (applyIncludes (applyExcludes detected overrides) overrides transactions)

/-- Modelled from the spec: the shipped detector attaches `merchantKey` to
each record ("stable for a given normalized description", spec section 3);
the detector of `src/lib/plaid.ts` returns bare records, so the key is
attached here via `toMerchantKey`. -/
def detectKeyed (transactions : List DbTransaction) : List KeyedRecurring :=
  (detectRecurringTransactions transactions).map fun r =>
    ⟨toMerchantKey r.merchant, r⟩

/-- `getRecurringOverrides().catch(() => [])` (`page.tsx`, line 27): a
failed override fetch degrades to the empty override list. -/
def overridesOrEmpty (fetched : Except String (List RecurringOverride)) :
    List RecurringOverride :=
  match fetched with
  | Except.ok l => l
  | Except.error _ => []

/-- The recurring-page computation (`page.tsx`, lines 25-50): detect, then
apply the overrides that the possibly-failing fetch produced. -/
def recurringPageResult (transactions : List DbTransaction)
    (fetched : Except String (List RecurringOverride)) : List KeyedRecurring :=
  applyOverrides (detectKeyed transactions) (overridesOrEmpty fetched) transactions

/-! ## Division-checked detector (for the divisor-safety claim)

A variant of the detector in which every relative-deviation division
explicitly flags a zero divisor instead of evaluating `x / 0`.  The outer
`none` means "a division by zero was reached"; proving it never occurs
shows the variance check only ever divides by the already-guarded mean. -/

/-- `|a - mean| / mean`, flagging a divisor below `0.01` (in particular a
zero divisor). -/
def relDevChecked (a mean : ℚ) : Option ℚ :=
  if mean < mkRat 1 100 then none else some (qdiv (qabs (qsub a mean)) mean)

/-- The `every`-style variance check with checked division: evaluates the
deviations left to right, stops at the first failure, and propagates an
unguarded-divisor flag. -/
def withinVarChecked (amounts : List ℚ) (mean θ : ℚ) : Option Bool :=
  match amounts with
  | [] => some true
  | a :: rest =>
    match relDevChecked a mean with
    | none => none
    | some d => if d ≤ θ then withinVarChecked rest mean θ else some false

/-- Pass-1 group processing with checked division. -/
def processGroup1Checked (txns : List DbTransaction) :
    Option (Option RecurringTransaction) :=
  if txns.length < 3 then some none
  else
    let sorted := sortByDate txns
    let amounts := sorted.map fun t => qabs t.amount
    let meanAmount := meanQ amounts
    if meanAmount < mkRat 1 100 then some none
    else
      let varianceThreshold : ℚ := if txns.any isUtility then mkRat 45 100 else mkRat 20 100
      match withinVarChecked amounts meanAmount varianceThreshold with
      | none => none
      | some false => some none
      | some true => some (group1Tail txns sorted meanAmount)

/-- Pass-2 group processing with checked division. -/
def processGroup2Checked (txns : List DbTransaction) :
    Option (Option RecurringTransaction) :=
  if txns.length < 2 then some none
  else
    let sorted := sortByDate txns
    if distinctMonths sorted < 2 then some none
    else
      let amounts := sorted.map fun t => qabs t.amount
      let meanAmount := meanQ amounts
      if meanAmount < mkRat 1 100 then some none
      else
        match withinVarChecked amounts meanAmount (mkRat 45 100) with
        | none => none
        | some false => some none
        | some true =>
          let lastTx := sorted.getLastD dummyTx
          some (some
            { merchant := lastTx.description
              averageAmount := meanAmount
              frequency := RecurringFrequency.monthly
              intervalDays := 30
              lastDate := lastTx.date
              nextPredictedDate := addDays lastTx.date 30
              monthlyAmount := meanAmount
              occurrences := txns.length
              category := mostCommon ((txns.map fun t => t.category).filter fun s => !(s == ""))
              subcategory := mostCommon ((txns.map fun t => t.subcategory).filter fun s => !(s == "")) })

/-- The Pass-1 loop with checked division. -/
def pass1Checked (groups : List (String × List DbTransaction)) :
    Option (List RecurringTransaction × List String) :=
  groups.foldl
    (fun acc kg =>
      match acc with
      | none => none
      | some a =>
        match processGroup1Checked kg.2 with
        | none => none
        | some none => some a
        | some (some r) => some (a.1 ++ [r], a.2 ++ kg.2.map fun t => t.id))
    (some ([], []))

/-- The Pass-2 loop with checked division. -/
def pass2Checked (groups : List (String × List DbTransaction)) :
    Option (List RecurringTransaction) :=
  groups.foldl
    (fun acc kg =>
      match acc with
      | none => none
      | some rs =>
        match processGroup2Checked kg.2 with
        | none => none
        | some none => some rs
        | some (some r) => some (rs ++ [r]))
    (some [])

/-- The detector with checked division: `none` iff some variance check
would divide by zero. -/
def detectRecurringTransactionsChecked (transactions : List DbTransaction) :
    Option (List RecurringTransaction) :=
  let expenses := transactions.filter isExpenseTx
  match pass1Checked (groupsBy shortNorm pass1Key expenses) with
  | none => none
  | some p1 =>
    let utilityTxns := expenses.filter fun t => isUtility t && !(decide (t.id ∈ p1.2))
    match pass2Checked (groupsBy shortNorm pass2Key utilityTxns) with
    | none => none
    | some rs2 => some (sortByMonthly (p1.1 ++ rs2))

/-! ## The claimed normalizer variants (for the normalizer claim)

`specC3Normalize` renders the claimed pipeline literally: its step 4
*removes* the remaining special characters.  `amendedNormalize` is the
claimed pipeline with step 4 amended to *replace them with a space*; it is
written with an independent recursion rather than `List.map` so the
agreement with the source normalizer is not definitional. -/

/-- Step 4 as the claim states it: remove all remaining non-alphanumeric,
non-space characters. -/
def removeSpecials (l : List Char) : List Char := l.filter isKeptChar

/-- The claimed normalizer: steps 1-3 and 5 as in the source, step 4
removing the matched characters. -/
def specC3Normalize (s : String) : String :=
  String.mk (wsStep (removeSpecials (refStep (sepStep (lowerStep s.data)))))

/-- Step 4 as amended: replace every remaining non-alphanumeric, non-space
character with a space. -/
def replaceSpecials : List Char → List Char
  | [] => []
  | c :: cs => (if isKeptChar c then c else ' ') :: replaceSpecials cs

/-- The amended normalizer: lowercase; replace `* # @` with a space;
remove standalone digit runs of length at least 5; replace every remaining
non-alphanumeric, non-space character with a space; collapse whitespace
and trim. -/
def amendedNormalize (s : String) : String :=
  String.mk (wsStep (replaceSpecials (refStep (sepStep (lowerStep s.data)))))

/-! ## Claim C3: the merchant normalizer -/

theorem replaceSpecials_eq_charStep (l : List Char) : replaceSpecials l = charStep l := by
  induction l with
  | nil => rfl
  | cons c cs ih => simp [replaceSpecials, charStep] at ih ⊢; exact ih

/-- Claim C3, counterexample: the claimed pipeline *removes* the remaining
special characters (step 4), but the source replaces them with a space, so
on `"a.b"` the source normalizer yields `"a b"` while the claimed pipeline
yields `"ab"`. -/
theorem claim_c3_counterexample :
    ¬ normalizeMerchant "a.b" = specC3Normalize "a.b" := by decide

/-- Claim C3 (amended): for every description string, the merchant
normalizer applies, in order: (1) lowercasing; (2) replacing `* # @` with a
space; (3) removing standalone digit runs of length at least 5;
(4) replacing all remaining non-alphanumeric, non-space characters with a
space; (5) collapsing consecutive whitespace to a single space and
trimming. -/
theorem claim_c3_normalizer_steps (s : String) :
    normalizeMerchant s = amendedNormalize s := by
  rw [normalizeMerchant, amendedNormalize, replaceSpecials_eq_charStep]

/-! ## Claim C2: the variance gate -/

/-- Four monthly-spaced same-merchant expenses, amounts 100/100/100/145,
no utility category. -/
def varianceGateTxs : List DbTransaction :=
  [⟨"a1", "2026-01-05", "acct", "Acme Power", "Subscriptions", "", 100, TxType.expense⟩,
   ⟨"a2", "2026-02-05", "acct", "Acme Power", "Subscriptions", "", 100, TxType.expense⟩,
   ⟨"a3", "2026-03-05", "acct", "Acme Power", "Subscriptions", "", 100, TxType.expense⟩,
   ⟨"a4", "2026-04-05", "acct", "Acme Power", "Subscriptions", "", 145, TxType.expense⟩]

/-- The same group with a single utility-categorized member. -/
def varianceGateOneUtilTxs : List DbTransaction :=
  [⟨"a1", "2026-01-05", "acct", "Acme Power", "Electric", "", 100, TxType.expense⟩,
   ⟨"a2", "2026-02-05", "acct", "Acme Power", "Subscriptions", "", 100, TxType.expense⟩,
   ⟨"a3", "2026-03-05", "acct", "Acme Power", "Subscriptions", "", 100, TxType.expense⟩,
   ⟨"a4", "2026-04-05", "acct", "Acme Power", "Subscriptions", "", 145, TxType.expense⟩]

/-- The same group with every member utility-categorized. -/
def varianceGateAllUtilTxs : List DbTransaction :=
  [⟨"a1", "2026-01-05", "acct", "Acme Power", "Electric", "", 100, TxType.expense⟩,
   ⟨"a2", "2026-02-05", "acct", "Acme Power", "Electric", "", 100, TxType.expense⟩,
   ⟨"a3", "2026-03-05", "acct", "Acme Power", "Electric", "", 100, TxType.expense⟩,
   ⟨"a4", "2026-04-05", "acct", "Acme Power", "Electric", "", 145, TxType.expense⟩]

/-- Claim C2: with no utility member the 100/100/100/145 group fails the
20% variance gate and produces no output; with any utility member (hence
also with every member a utility) the threshold is 45% and exactly one
record for the merchant is emitted. -/
theorem claim_c2_variance_gate :
    detectRecurringTransactions varianceGateTxs = [] ∧
    (detectRecurringTransactions varianceGateOneUtilTxs).map
        (fun r => r.merchant) = ["Acme Power"] ∧
    (detectRecurringTransactions varianceGateAllUtilTxs).map
        (fun r => r.merchant) = ["Acme Power"] :=
  ⟨by decide, by decide, by decide⟩

/-! ## Claim C5: the utility fallback pass -/

/-- A utility transaction pair: same 8-character normalized prefix, two
distinct months, amounts within the 45% tolerance. -/
def utilityFallbackPair : List DbTransaction :=
  [⟨"u1", "2026-01-10", "acct", "Duke Energy", "Utilities", "", 100, TxType.expense⟩,
   ⟨"u2", "2026-02-12", "acct", "Duke Energy PMT", "Utilities", "", 180, TxType.expense⟩]

/-- The same pair without a utility category. -/
def plainFallbackPair : List DbTransaction :=
  [⟨"u1", "2026-01-10", "acct", "Duke Energy", "Payments", "", 100, TxType.expense⟩,
   ⟨"u2", "2026-02-12", "acct", "Duke Energy PMT", "Payments", "", 180, TxType.expense⟩]

/-- Claim C5: the utility pair is emitted by Pass 2 as one monthly record
with a 30-day interval, next date `lastDate + 30` days and
`monthlyAmount` the mean amount; the non-utility pair of the same shape
is emitted by neither pass. -/
theorem claim_c5_utility_fallback :
    detectRecurringTransactions utilityFallbackPair =
      [{ merchant := "Duke Energy PMT"
         averageAmount := 140
         frequency := RecurringFrequency.monthly
         intervalDays := 30
         lastDate := "2026-02-12"
         nextPredictedDate := addDays "2026-02-12" 30
         monthlyAmount := 140
         occurrences := 2
         category := some "Utilities"
         subcategory := none }] ∧
    addDays "2026-02-12" 30 = "2026-03-14" ∧
    detectRecurringTransactions plainFallbackPair = [] :=
  ⟨by decide, by decide, by decide⟩

/-! ## Claim C8: output ordering -/

/-- Claim C8: the detector's output (Pass 1 concatenated with Pass 2) and
the override composer's final output are always sorted non-increasing by
`monthlyAmount` (`amtOrd`/`keyedOrd` order each record's `monthlyAmount`
above the next one's). -/
theorem claim_c8_sorted_output :
    (∀ transactions : List DbTransaction,
      List.Sorted amtOrd (detectRecurringTransactions transactions)) ∧
    ∀ (detected : List KeyedRecurring) (overrides : List RecurringOverride)
      (transactions : List DbTransaction),
      List.Sorted keyedOrd (applyOverrides detected overrides transactions) := by
  constructor
  · intro transactions
    exact List.sorted_insertionSort amtOrd _
  · intro detected overrides transactions
    exact List.sorted_insertionSort keyedOrd _

/-! ## Claim C1: the frequency classifier -/

/-- Claim C1: for a non-empty gap list the classifier returns `weekly`
exactly when the mean lies in `[4, 10]` with every gap within 3 of the
mean, `biweekly` exactly for `[11, 17]` within 5, `monthly` exactly for
`[25, 35]` within 7 — always with `intervalDays` the rounded mean — and
fails exactly when no band matches; in particular `[7,7,7]` is weekly with
interval 7, `[14,15,13]` biweekly, `[30,31,29]` monthly, and `[20,20,20]`
yields no classification. -/
theorem claim_c1_frequency_bands (gaps : List ℚ) (h : gaps ≠ []) :
    (detectFrequency gaps = some (RecurringFrequency.weekly, jsRound (meanQ gaps)) ↔
      4 ≤ meanQ gaps ∧ meanQ gaps ≤ 10 ∧ ∀ g ∈ gaps, qabs (qsub g (meanQ gaps)) ≤ 3) ∧
    (detectFrequency gaps = some (RecurringFrequency.biweekly, jsRound (meanQ gaps)) ↔
      11 ≤ meanQ gaps ∧ meanQ gaps ≤ 17 ∧ ∀ g ∈ gaps, qabs (qsub g (meanQ gaps)) ≤ 5) ∧
    (detectFrequency gaps = some (RecurringFrequency.monthly, jsRound (meanQ gaps)) ↔
      25 ≤ meanQ gaps ∧ meanQ gaps ≤ 35 ∧ ∀ g ∈ gaps, qabs (qsub g (meanQ gaps)) ≤ 7) ∧
    (detectFrequency gaps = none ↔
      ¬(4 ≤ meanQ gaps ∧ meanQ gaps ≤ 10 ∧ ∀ g ∈ gaps, qabs (qsub g (meanQ gaps)) ≤ 3) ∧
      ¬(11 ≤ meanQ gaps ∧ meanQ gaps ≤ 17 ∧ ∀ g ∈ gaps, qabs (qsub g (meanQ gaps)) ≤ 5) ∧
      ¬(25 ≤ meanQ gaps ∧ meanQ gaps ≤ 35 ∧ ∀ g ∈ gaps, qabs (qsub g (meanQ gaps)) ≤ 7)) ∧
    detectFrequency [7, 7, 7] = some (RecurringFrequency.weekly, 7) ∧
    detectFrequency [14, 15, 13] = some (RecurringFrequency.biweekly, 14) ∧
    detectFrequency [30, 31, 29] = some (RecurringFrequency.monthly, 30) ∧
    detectFrequency [20, 20, 20] = none := by
  have hlen : ¬ gaps.length = 0 := by
    simpa [List.length_eq_zero] using h
  refine ⟨?_, ?_, ?_, ?_, by decide, by decide, by decide, by decide⟩ <;>
    simp only [detectFrequency, if_neg hlen] <;>
    split_ifs with h1 h2 h3
  · exact iff_of_true rfl h1
  · exact iff_of_false (by simp) h1
  · exact iff_of_false (by simp) h1
  · exact iff_of_false (by simp) h1
  · exact iff_of_false (by simp)
      (fun hb => by have ha := h1.2.1; have hc := hb.1; linarith)
  · exact iff_of_true rfl h2
  · exact iff_of_false (by simp) h2
  · exact iff_of_false (by simp) h2
  · exact iff_of_false (by simp)
      (fun hb => by have ha := h1.2.1; have hc := hb.1; linarith)
  · exact iff_of_false (by simp)
      (fun hb => by have ha := h2.2.1; have hc := hb.1; linarith)
  · exact iff_of_true rfl h3
  · exact iff_of_false (by simp) h3
  · exact iff_of_false (by simp) (fun hc => hc.1 h1)
  · exact iff_of_false (by simp) (fun hc => hc.2.1 h2)
  · exact iff_of_false (by simp) (fun hc => hc.2.2 h3)
  · exact iff_of_true rfl ⟨h1, h2, h3⟩

/-- Witness for the frequency-band claim at the concrete gap list
`[7, 7, 7]`. -/
theorem claim_c1_frequency_bands_witness :
    detectFrequency [7, 7, 7] = some (RecurringFrequency.weekly, 7) :=
  (claim_c1_frequency_bands [7, 7, 7] (by decide)).2.2.2.2.1

/-! ## Claim C9: graceful degradation of the override fetch -/

theorem sorted_detectKeyed (transactions : List DbTransaction) :
    List.Sorted keyedOrd (detectKeyed transactions) :=
  List.Pairwise.map _ (fun _ _ hab => hab) (List.sorted_insertionSort amtOrd _)

theorem applyExcludes_nil (detected : List KeyedRecurring) :
    applyExcludes detected [] = detected := by
  simp [applyExcludes]

theorem applyOverrides_nil (detected : List KeyedRecurring)
    (transactions : List DbTransaction) :
    applyOverrides detected [] transactions = sortKeyed detected := by
  rw [applyOverrides, applyExcludes_nil]
  rfl

/-- Claim C9: when the override fetch fails, the page computation equals
applying the empty override list to the detector's output — detection
still runs, and (because the detector's output is already sorted) the
result is exactly the detector's keyed output. -/
theorem claim_c9_override_fetch_degrades (transactions : List DbTransaction)
    (e : String) :
    recurringPageResult transactions (Except.error e) =
      applyOverrides (detectKeyed transactions) [] transactions ∧
    recurringPageResult transactions (Except.error e) = detectKeyed transactions := by
  constructor
  · rfl
  · rw [recurringPageResult]
    show applyOverrides (detectKeyed transactions) [] transactions = _
    rw [applyOverrides_nil]
    exact List.Sorted.insertionSort_eq (sorted_detectKeyed transactions)

/-! ## Claims C6 and C7: the override composer -/

theorem foldl_pushes (g : RecurringOverride → Option KeyedRecurring) :
    ∀ (l : List RecurringOverride) (acc : List KeyedRecurring),
      l.foldl
          (fun acc o =>
            match g o with
            | none => acc
            | some r => acc ++ [r])
          acc
        = acc ++ l.filterMap g := by
  intro l
  induction l with
  | nil => intro acc; simp
  | cons o rest ih =>
    intro acc
    cases hgo : g o with
    | none => simp [hgo, ih, List.filterMap_cons_none hgo]
    | some r => simp [hgo, ih, List.filterMap_cons_some hgo]

theorem applyIncludes_eq (base : List KeyedRecurring)
    (overrides : List RecurringOverride) (transactions : List DbTransaction) :
    applyIncludes base overrides transactions =
      base ++ (overrides.filter fun o => o.is_recurring).filterMap
        (includeStep transactions (base.map fun r => r.merchantKey)) := by
  rw [applyIncludes]
  exact foldl_pushes _ _ base

theorem includeStep_key {transactions : List DbTransaction} {ex : List String}
    {o : RecurringOverride} {r : KeyedRecurring}
    (h : includeStep transactions ex o = some r) :
    r.merchantKey = o.merchant_key := by
  simp only [includeStep] at h
  split_ifs at h with h1 h2
  obtain rfl := Option.some.inj h
  rfl

/-- Claim C6: once a key has an `is_recurring = false` override (and, per
the override store's per-key uniqueness, no conflicting `true` override),
no record with that key survives override application — however strong the
detection signal, i.e. for every detected list. -/
theorem claim_c6_force_exclude (detected : List KeyedRecurring)
    (overrides : List RecurringOverride) (transactions : List DbTransaction)
    (k : String)
    (hex : ∃ o ∈ overrides, o.merchant_key = k ∧ o.is_recurring = false)
    (huniq : ∀ o ∈ overrides, o.merchant_key = k → o.is_recurring = false) :
    ∀ r ∈ applyOverrides detected overrides transactions, r.merchantKey ≠ k := by
  intro r hr hrk
  rw [applyOverrides, sortKeyed, List.mem_insertionSort, applyIncludes_eq] at hr
  rcases List.mem_append.mp hr with hbase | hadd
  · rw [applyExcludes] at hbase
    have hpred := List.of_mem_filter hbase
    rcases hex with ⟨o, ho, hok, hof⟩
    have hmem : k ∈ (overrides.filter fun o => !o.is_recurring).map
        fun o => o.merchant_key := by
      exact List.mem_map.mpr ⟨o, List.mem_filter.mpr ⟨ho, by simp [hof]⟩, hok⟩
    rw [hrk] at hpred
    simp [hmem] at hpred
  · rcases List.mem_filterMap.mp hadd with ⟨o, ho, hstep⟩
    have hkey := includeStep_key hstep
    have hrec : o.is_recurring = true := by
      simpa using List.of_mem_filter ho
    have hfalse := huniq o (List.mem_of_mem_filter ho) (by rw [← hkey, hrk])
    rw [hrec] at hfalse
    simp at hfalse

/-- Concrete instances for the force-exclude witness. -/
def c6Entry : KeyedRecurring :=
  ⟨"netflix",
   ⟨"Netflix", 16, RecurringFrequency.monthly, 30, "2026-03-01", "2026-03-31",
    16, 3, some "Entertainment", none⟩⟩

/-- Witness for the force-exclude claim: a single detected entry keyed
`"netflix"` is removed by a `⟨"netflix", false⟩` override. -/
theorem claim_c6_force_exclude_witness :
    ((applyOverrides [c6Entry] [⟨"netflix", false⟩] []).all
      fun r => decide (r.merchantKey ≠ "netflix")) = true := by
  rw [List.all_eq_true]
  intro r hr
  simpa using
    claim_c6_force_exclude [c6Entry] [⟨"netflix", false⟩] [] "netflix"
      ⟨⟨"netflix", false⟩, by decide, rfl, rfl⟩
      (by intro o ho hk; simp at ho; simp [ho])
      r hr

theorem filterMap_includeStep_filter (transactions : List DbTransaction)
    (ex : List String) (k : String) :
    ∀ l : List RecurringOverride,
      (l.filterMap (includeStep transactions ex)).filter
          (fun r => decide (r.merchantKey = k)) =
        (l.filter fun o => decide (o.merchant_key = k)).filterMap
          (includeStep transactions ex) := by
  intro l
  induction l with
  | nil => rfl
  | cons o rest ih =>
    by_cases hk : o.merchant_key = k
    · cases hgo : includeStep transactions ex o with
      | none => simp [List.filterMap_cons_none hgo, List.filter_cons, hk, ih]
      | some r =>
        have hkey : r.merchantKey = o.merchant_key := includeStep_key hgo
        simp [List.filterMap_cons_some hgo, List.filter_cons, hk, hkey, ih,
          List.filterMap_cons_some hgo]
    · cases hgo : includeStep transactions ex o with
      | none => simp [List.filterMap_cons_none hgo, List.filter_cons, hk, ih]
      | some r =>
        have hkey : r.merchantKey = o.merchant_key := includeStep_key hgo
        simp [List.filterMap_cons_some hgo, List.filter_cons, hk, hkey, ih]

/-- Claim C7: for an `is_recurring = true` override with key `k` (unique in
the store) whose key is absent from the post-exclusion detected list, the
final output contains exactly one record with key `k` — the one
synthesized from all matching non-income transactions — when any such
transaction exists, and none otherwise. -/
theorem claim_c7_force_include (detected : List KeyedRecurring)
    (overrides : List RecurringOverride) (transactions : List DbTransaction)
    (k : String)
    (hov : overrides.filter (fun o => decide (o.merchant_key = k)) = [⟨k, true⟩])
    (hnot : ∀ r ∈ applyExcludes detected overrides, r.merchantKey ≠ k) :
    (applyOverrides detected overrides transactions).filter
        (fun r => decide (r.merchantKey = k)) =
      if (transactions.filter fun tx =>
            isExpenseTx tx && decide (toMerchantKey tx.description = k)).length = 0
      then []
      else
        [buildManualRecurring
          (transactions.filter fun tx =>
            isExpenseTx tx && decide (toMerchantKey tx.description = k)) k] := by
  have hperm :
      List.Perm
        ((applyOverrides detected overrides transactions).filter
          fun r => decide (r.merchantKey = k))
        ((applyIncludes (applyExcludes detected overrides) overrides
            transactions).filter fun r => decide (r.merchantKey = k)) :=
    (List.perm_insertionSort keyedOrd _).filter _
  have hbase :
      (applyExcludes detected overrides).filter
        (fun r => decide (r.merchantKey = k)) = [] :=
    List.filter_eq_nil_iff.mpr fun r hr => by simpa using hnot r hr
  have hkeys : ¬ k ∈ (applyExcludes detected overrides).map fun r => r.merchantKey := by
    intro hk
    rcases List.mem_map.mp hk with ⟨r, hr, hrk⟩
    exact hnot r hr hrk
  have hfk :
      ((overrides.filter fun o => o.is_recurring).filter
        fun o => decide (o.merchant_key = k)) = [⟨k, true⟩] := by
    rw [List.filter_filter]
    rw [List.filter_congr
      (fun o _ => by rw [Bool.and_comm] :
        ∀ o ∈ overrides, (decide (o.merchant_key = k) && o.is_recurring)
          = (o.is_recurring && decide (o.merchant_key = k)))]
    rw [← List.filter_filter, hov]
    rfl
  rw [applyIncludes_eq, List.filter_append, hbase, List.nil_append,
    filterMap_includeStep_filter, hfk] at hperm
  have hstep :
      ([(⟨k, true⟩ : RecurringOverride)].filterMap
        (includeStep transactions
          ((applyExcludes detected overrides).map fun r => r.merchantKey))) =
      if (transactions.filter fun tx =>
            isExpenseTx tx && decide (toMerchantKey tx.description = k)).length = 0
      then []
      else
        [buildManualRecurring
          (transactions.filter fun tx =>
            isExpenseTx tx && decide (toMerchantKey tx.description = k)) k] := by
    simp only [List.filterMap_cons, List.filterMap_nil, includeStep, if_neg hkeys]
    split_ifs with hm <;> simp
  rw [hstep] at hperm
  split_ifs at hperm ⊢ with hm
  · exact hperm.eq_nil
  · exact List.perm_singleton.mp hperm

/-- Concrete override list for the force-include witness. -/
def c7Overrides : List RecurringOverride := [⟨"netflix", true⟩]

/-- Two matching expenses — below the Pass-1 floor — for the force-include
witness. -/
def c7Txs : List DbTransaction :=
  [⟨"n1", "2026-01-03", "acct", "Netflix", "Entertainment", "", mkRat 1599 100, TxType.expense⟩,
   ⟨"n2", "2026-02-03", "acct", "Netflix", "Entertainment", "", mkRat 1599 100, TxType.expense⟩]

/-- Witness for the force-include claim at a concrete override and
transaction list. -/
theorem claim_c7_force_include_witness :
    (applyOverrides [] c7Overrides c7Txs).filter
        (fun r => decide (r.merchantKey = "netflix")) =
      if (c7Txs.filter fun tx =>
            isExpenseTx tx && decide (toMerchantKey tx.description = "netflix")).length = 0
      then []
      else
        [buildManualRecurring
          (c7Txs.filter fun tx =>
            isExpenseTx tx && decide (toMerchantKey tx.description = "netflix")) "netflix"] :=
  claim_c7_force_include [] c7Overrides c7Txs "netflix" (by decide) (by decide)

/-! ## Claim C4: the minimum occurrence floor -/

/-- Lookup of a group by key in the association list. -/
def findGroup (gs : List (String × List DbTransaction)) (k : String) :
    List DbTransaction :=
  match gs with
  | [] => []
  | (k2, g) :: rest => if k2 = k then g else findGroup rest k

theorem findGroup_upsert_self (gs : List (String × List DbTransaction))
    (k : String) (tx : DbTransaction) :
    findGroup (upsertGroup gs k tx) k = findGroup gs k ++ [tx] := by
  induction gs with
  | nil => simp [upsertGroup, findGroup]
  | cons kg rest ih =>
    obtain ⟨k2, g⟩ := kg
    by_cases h : k2 = k
    · simp [upsertGroup, findGroup, h]
    · simp [upsertGroup, findGroup, h, ih]

theorem findGroup_upsert_ne (gs : List (String × List DbTransaction))
    (k : String) (tx : DbTransaction) (k2 : String) (h : k2 ≠ k) :
    findGroup (upsertGroup gs k tx) k2 = findGroup gs k2 := by
  induction gs with
  | nil =>
    simp only [upsertGroup, findGroup]
    rw [if_neg fun hc => h hc.symm]
  | cons kg rest ih =>
    obtain ⟨k3, g⟩ := kg
    by_cases h3 : k3 = k
    · subst h3
      simp only [upsertGroup, if_pos rfl, findGroup]
      rw [if_neg fun hc => h hc.symm, if_neg fun hc => h hc.symm]
    · by_cases h2 : k3 = k2
      · simp only [upsertGroup, if_neg h3, findGroup, if_pos h2]
      · simp only [upsertGroup, if_neg h3, findGroup, if_neg h2, ih]

theorem mem_keys_upsert (gs : List (String × List DbTransaction))
    (k : String) (tx : DbTransaction) (x : String) :
    x ∈ (upsertGroup gs k tx).map Prod.fst ↔ x ∈ gs.map Prod.fst ∨ x = k := by
  induction gs with
  | nil => simp [upsertGroup]
  | cons kg rest ih =>
    obtain ⟨k2, g⟩ := kg
    by_cases h : k2 = k
    · subst h
      have hred : upsertGroup ((k2, g) :: rest) k2 tx = (k2, g ++ [tx]) :: rest := by
        simp [upsertGroup]
      rw [hred, List.map_cons, List.map_cons]
      simp only [List.mem_cons]
      tauto
    · have hred : upsertGroup ((k2, g) :: rest) k tx
          = (k2, g) :: upsertGroup rest k tx := by
        simp [upsertGroup, h]
      rw [hred, List.map_cons, List.map_cons]
      simp only [List.mem_cons, ih]
      tauto

theorem nodup_keys_upsert (gs : List (String × List DbTransaction))
    (k : String) (tx : DbTransaction) (h : (gs.map Prod.fst).Nodup) :
    ((upsertGroup gs k tx).map Prod.fst).Nodup := by
  induction gs with
  | nil => simp [upsertGroup]
  | cons kg rest ih =>
    obtain ⟨k2, g⟩ := kg
    rw [List.map_cons, List.nodup_cons] at h
    by_cases hk : k2 = k
    · subst hk
      simpa [upsertGroup, List.nodup_cons] using h
    · rw [upsertGroup]
      rw [if_neg hk]
      rw [List.map_cons, List.nodup_cons]
      refine ⟨?_, ih h.2⟩
      intro hc
      rcases (mem_keys_upsert rest k tx k2).mp hc with hc2 | hc2
      · exact h.1 hc2
      · exact hk hc2

theorem mem_eq_findGroup {gs : List (String × List DbTransaction)}
    (hnd : (gs.map Prod.fst).Nodup) {kg : String × List DbTransaction}
    (hm : kg ∈ gs) : kg.2 = findGroup gs kg.1 := by
  induction gs with
  | nil => cases hm
  | cons kg2 rest ih =>
    obtain ⟨k2, g⟩ := kg2
    rw [List.map_cons, List.nodup_cons] at hnd
    rcases List.mem_cons.mp hm with hc | hc
    · subst hc
      simp [findGroup]
    · have hk : k2 ≠ kg.1 := by
        intro he
        exact hnd.1 (he ▸ List.mem_map.mpr ⟨kg, hc, rfl⟩)
      rw [findGroup, if_neg hk]
      exact ih hnd.2 hc

theorem nodup_keys_groupsBy (skip : DbTransaction → Bool)
    (keyOf : DbTransaction → String) (txs : List DbTransaction) :
    ((groupsBy skip keyOf txs).map Prod.fst).Nodup := by
  rw [groupsBy]
  suffices h : ∀ (l : List DbTransaction) (gs : List (String × List DbTransaction)),
      (gs.map Prod.fst).Nodup →
      ((l.foldl (fun gs tx => if skip tx then gs else upsertGroup gs (keyOf tx) tx)
          gs).map Prod.fst).Nodup from
    h txs [] (by simp)
  intro l
  induction l with
  | nil => intro gs h; simpa using h
  | cons t rest ih =>
    intro gs h
    rw [List.foldl_cons]
    by_cases hs : skip t
    · rw [if_pos hs]; exact ih gs h
    · rw [if_neg hs]; exact ih _ (nodup_keys_upsert gs (keyOf t) t h)

theorem groupsBy_findGroup (skip : DbTransaction → Bool)
    (keyOf : DbTransaction → String) :
    ∀ (txs : List DbTransaction) (gs : List (String × List DbTransaction))
      (k : String),
      findGroup
          (txs.foldl (fun gs tx => if skip tx then gs else upsertGroup gs (keyOf tx) tx) gs)
          k
        = findGroup gs k ++ txs.filter fun t => !skip t && decide (keyOf t = k) := by
  intro txs
  induction txs with
  | nil => intro gs k; simp
  | cons t rest ih =>
    intro gs k
    rw [List.foldl_cons, List.filter_cons]
    by_cases hs : skip t
    · rw [if_pos hs]
      have : (!skip t && decide (keyOf t = k)) = false := by simp [hs]
      rw [this]
      simp [ih]
    · rw [if_neg hs]
      by_cases hk : keyOf t = k
      · have : (!skip t && decide (keyOf t = k)) = true := by simp [hs, hk]
        rw [this, ih, hk, findGroup_upsert_self]
        simp
      · have : (!skip t && decide (keyOf t = k)) = false := by simp [hs, hk]
        rw [this, ih, findGroup_upsert_ne _ _ _ _ (fun hc => hk hc.symm)]
        simp

/-- Every group produced by `groupsBy` is exactly the filter of the input
on its key (in particular its members all carry that key and come from the
input). -/
theorem groupsBy_group_eq (skip : DbTransaction → Bool)
    (keyOf : DbTransaction → String) (txs : List DbTransaction)
    {kg : String × List DbTransaction} (hm : kg ∈ groupsBy skip keyOf txs) :
    kg.2 = txs.filter fun t => !skip t && decide (keyOf t = kg.1) := by
  have h1 := mem_eq_findGroup (nodup_keys_groupsBy skip keyOf txs) hm
  rw [groupsBy] at h1
  rw [h1, groupsBy_findGroup skip keyOf txs [] kg.1]
  simp [findGroup]

theorem getLastD_mem (d : DbTransaction) :
    ∀ l : List DbTransaction, l ≠ [] → l.getLastD d ∈ l
  | [], h => absurd rfl h
  | [a], _ => by simp
  | a :: b :: t, _ => by
    rw [List.getLastD_cons]
    exact List.mem_cons_of_mem a (getLastD_mem a (b :: t) (by simp))

theorem sortByDate_ne_nil {g : List DbTransaction} (h : g ≠ []) :
    sortByDate g ≠ [] := by
  intro hc
  have hlen := congrArg List.length hc
  rw [sortByDate, List.length_insertionSort] at hlen
  exact h (List.length_eq_zero.mp hlen)

theorem group1Tail_origin {g sorted : List DbTransaction} {m : ℚ}
    {r : RecurringTransaction} (hne : sorted ≠ [])
    (hsub : ∀ t ∈ sorted, t ∈ g) (h : group1Tail g sorted m = some r) :
    ∃ t ∈ g, r.merchant = t.description := by
  simp only [group1Tail] at h
  cases hf : detectFrequency (consecGaps sorted) with
  | none => rw [hf] at h; cases h
  | some fi =>
    obtain ⟨freq, iv⟩ := fi
    rw [hf] at h
    obtain rfl := Option.some.inj h
    exact ⟨sorted.getLastD dummyTx, hsub _ (getLastD_mem dummyTx sorted hne), rfl⟩

theorem processGroup1_origin {g : List DbTransaction} {r : RecurringTransaction}
    (h : processGroup1 g = some r) :
    3 ≤ g.length ∧ ∃ t ∈ g, r.merchant = t.description := by
  simp only [processGroup1] at h
  split_ifs at h <;>
    first
      | exact Option.noConfusion h
      | exact ⟨by omega,
          group1Tail_origin
            (by
              intro hc
              have h9 := congrArg List.length hc
              rw [sortByDate, List.length_insertionSort] at h9
              simp only [List.length_nil] at h9
              omega)
            (fun t ht => by rwa [sortByDate, List.mem_insertionSort] at ht) h⟩

theorem processGroup2_origin {g : List DbTransaction} {r : RecurringTransaction}
    (h : processGroup2 g = some r) :
    ∃ t ∈ g, r.merchant = t.description := by
  simp only [processGroup2] at h
  split_ifs at h
  all_goals
    first
      | exact Option.noConfusion h
      | (obtain rfl := Option.some.inj h
         refine ⟨(sortByDate g).getLastD dummyTx, ?_, rfl⟩
         have hne : sortByDate g ≠ [] := by
           intro hc
           have h9 := congrArg List.length hc
           rw [sortByDate, List.length_insertionSort] at h9
           simp only [List.length_nil] at h9
           omega
         have hmem := getLastD_mem dummyTx (sortByDate g) hne
         rwa [sortByDate, List.mem_insertionSort] at hmem)

theorem pass1_origin (groups : List (String × List DbTransaction))
    {r : RecurringTransaction} (h : r ∈ (pass1 groups).1) :
    ∃ kg ∈ groups, processGroup1 kg.2 = some r := by
  rw [pass1] at h
  suffices hgen : ∀ (gs : List (String × List DbTransaction))
      (acc : List RecurringTransaction × List String),
      r ∈ (gs.foldl
          (fun acc kg =>
            match processGroup1 kg.2 with
            | none => acc
            | some r2 => (acc.1 ++ [r2], acc.2 ++ kg.2.map fun t => t.id))
          acc).1 →
      r ∈ acc.1 ∨ ∃ kg ∈ gs, processGroup1 kg.2 = some r by
    rcases hgen groups ([], []) h with hc | hc
    · simp at hc
    · exact hc
  intro gs
  induction gs with
  | nil => intro acc hmem; exact Or.inl hmem
  | cons kg rest ih =>
    intro acc hmem
    rw [List.foldl_cons] at hmem
    cases hp : processGroup1 kg.2 with
    | none =>
      rw [hp] at hmem
      rcases ih _ hmem with hc | hc
      · exact Or.inl hc
      · obtain ⟨kg2, hkg2, hp2⟩ := hc
        exact Or.inr ⟨kg2, List.mem_cons_of_mem _ hkg2, hp2⟩
    | some r2 =>
      rw [hp] at hmem
      rcases ih _ hmem with hc | hc
      · rcases List.mem_append.mp hc with hc2 | hc2
        · exact Or.inl hc2
        · have hr2 : r = r2 := by simpa using hc2
          exact Or.inr ⟨kg, List.mem_cons_self _ _, hr2 ▸ hp⟩
      · obtain ⟨kg2, hkg2, hp2⟩ := hc
        exact Or.inr ⟨kg2, List.mem_cons_of_mem _ hkg2, hp2⟩

/-- Claim C4: a merchant key grouping fewer than 3 expense transactions,
none of which satisfies the utility predicate (so the Pass-2 fallback
cannot pick them up), yields no record: no output entry's merchant
normalizes to that key. -/
theorem claim_c4_minimum_floor (transactions : List DbTransaction) (k : String)
    (hcount : ((transactions.filter isExpenseTx).filter
        fun t => decide (pass1Key t = k)).length < 3)
    (hnoutil : ∀ t ∈ transactions, isExpenseTx t = true → pass1Key t = k →
        isUtility t = false) :
    ∀ r ∈ detectRecurringTransactions transactions,
      normalizeMerchant r.merchant ≠ k := by
  intro r hr hrk
  simp only [detectRecurringTransactions] at hr
  rw [sortByMonthly, List.mem_insertionSort] at hr
  rcases List.mem_append.mp hr with h1 | h2
  · -- Pass 1: the group for key `k` is too small to emit.
    obtain ⟨kg, hkg, hp⟩ := pass1_origin _ h1
    obtain ⟨hlen, t0, ht0, hmerch⟩ := processGroup1_origin hp
    have hchar := groupsBy_group_eq shortNorm pass1Key _ hkg
    have ht0f : t0 ∈ (transactions.filter isExpenseTx).filter
        fun t => !shortNorm t && decide (pass1Key t = kg.1) := hchar ▸ ht0
    have hkey : pass1Key t0 = kg.1 := by
      have := List.of_mem_filter ht0f
      simp only [Bool.and_eq_true, decide_eq_true_eq] at this
      exact this.2
    have hk2 : kg.1 = k := by
      rw [← hkey, ← hrk, hmerch]
      rfl
    have hsub : kg.2.length ≤ ((transactions.filter isExpenseTx).filter
        fun t => decide (pass1Key t = k)).length := by
      rw [hchar, hk2]
      have hff : ((transactions.filter isExpenseTx).filter
            fun t => !shortNorm t && decide (pass1Key t = k))
          = ((transactions.filter isExpenseTx).filter
              fun t => decide (pass1Key t = k)).filter
            fun t => !shortNorm t :=
        (List.filter_filter _ _).symm
      rw [hff]
      exact List.length_filter_le _ _
    omega
  · -- Pass 2: every contributing transaction is a utility, contradiction.
    obtain ⟨kg, hkg, hp⟩ := List.mem_filterMap.mp h2
    obtain ⟨t0, ht0, hmerch⟩ := processGroup2_origin hp
    have hchar := groupsBy_group_eq shortNorm pass2Key _ hkg
    have ht0u : t0 ∈ (transactions.filter isExpenseTx).filter
        fun t => isUtility t && !(decide (t.id ∈ (pass1 (groupsBy shortNorm pass1Key
          (transactions.filter isExpenseTx))).2)) := by
      have := hchar ▸ ht0
      exact List.mem_of_mem_filter this
    have hutil : isUtility t0 = true := by
      have := List.of_mem_filter ht0u
      simp only [Bool.and_eq_true] at this
      exact this.1
    have ht0e := List.mem_of_mem_filter ht0u
    have ht0t : t0 ∈ transactions := List.mem_of_mem_filter ht0e
    have ht0x : isExpenseTx t0 = true := List.of_mem_filter ht0e
    have hkey : pass1Key t0 = k := by
      rw [← hrk, hmerch]
      rfl
    have := hnoutil t0 ht0t ht0x hkey
    rw [hutil] at this
    cases this

/-- A merchant (`"Gym"`) with only two exact-key expenses and no utility
category, next to a qualifying three-occurrence merchant. -/
def c4Txs : List DbTransaction :=
  [⟨"g1", "2026-01-08", "acct", "Gym", "Fitness", "", 40, TxType.expense⟩,
   ⟨"g2", "2026-02-08", "acct", "Gym", "Fitness", "", 40, TxType.expense⟩,
   ⟨"s1", "2026-01-01", "acct", "Spotify", "Music", "", 10, TxType.expense⟩,
   ⟨"s2", "2026-02-01", "acct", "Spotify", "Music", "", 10, TxType.expense⟩,
   ⟨"s3", "2026-03-01", "acct", "Spotify", "Music", "", 10, TxType.expense⟩]

/-- Witness for the minimum-occurrence-floor claim at a concrete input. -/
theorem claim_c4_minimum_floor_witness :
    ((detectRecurringTransactions c4Txs).all
      fun r => decide (normalizeMerchant r.merchant ≠ "gym")) = true := by
  rw [List.all_eq_true]
  intro r hr
  simpa using claim_c4_minimum_floor c4Txs "gym" (by decide) (by decide) r hr

/-! ## Claim C10: the variance division is guarded -/

theorem withinVarChecked_eq {mean : ℚ} (hm : ¬ mean < mkRat 1 100)
    (amounts : List ℚ) (θ : ℚ) :
    withinVarChecked amounts mean θ = some (decide (varianceOK amounts mean θ)) := by
  induction amounts with
  | nil => simp [withinVarChecked, varianceOK]
  | cons a rest ih =>
    simp only [withinVarChecked, relDevChecked, if_neg hm]
    by_cases hd : qdiv (qabs (qsub a mean)) mean ≤ θ
    · rw [if_pos hd, ih]
      congr 1
      rw [decide_eq_decide]
      simp [varianceOK, List.forall_mem_cons, hd]
    · rw [if_neg hd]
      have hnv : ¬ varianceOK (a :: rest) mean θ := fun hv =>
        hd (hv a (List.mem_cons_self a rest))
      simp [hnv]

theorem processGroup1Checked_eq (txns : List DbTransaction) :
    processGroup1Checked txns = some (processGroup1 txns) := by
  simp only [processGroup1Checked, processGroup1]
  split_ifs with h1 h2 h3 h4 h5
  · rfl
  · rfl
  · rw [withinVarChecked_eq h2]
    simp [h4]
  · rw [withinVarChecked_eq h2]
    simp [h4]
  · rw [withinVarChecked_eq h2]
    simp [h5]
  · rw [withinVarChecked_eq h2]
    simp [h5]

theorem processGroup2Checked_eq (txns : List DbTransaction) :
    processGroup2Checked txns = some (processGroup2 txns) := by
  simp only [processGroup2Checked, processGroup2]
  split_ifs with h1 h2 h3 h4
  · rfl
  · rfl
  · rfl
  · rw [withinVarChecked_eq h3]
    simp [h4]
  · rw [withinVarChecked_eq h3]
    simp [h4]

theorem pass1Checked_eq (groups : List (String × List DbTransaction)) :
    pass1Checked groups = some (pass1 groups) := by
  rw [pass1Checked, pass1]
  suffices h : ∀ (gs : List (String × List DbTransaction))
      (acc : List RecurringTransaction × List String),
      gs.foldl
          (fun acc kg =>
            match acc with
            | none => none
            | some a =>
              match processGroup1Checked kg.2 with
              | none => none
              | some none => some a
              | some (some r) => some (a.1 ++ [r], a.2 ++ kg.2.map fun t => t.id))
          (some acc)
        = some (gs.foldl
            (fun acc kg =>
              match processGroup1 kg.2 with
              | none => acc
              | some r => (acc.1 ++ [r], acc.2 ++ kg.2.map fun t => t.id))
            acc) from h groups ([], [])
  intro gs
  induction gs with
  | nil => intro acc; rfl
  | cons kg rest ih =>
    intro acc
    rw [List.foldl_cons, List.foldl_cons, processGroup1Checked_eq kg.2]
    cases hp : processGroup1 kg.2 with
    | none => exact ih acc
    | some r => exact ih _

theorem pass2Checked_eq (groups : List (String × List DbTransaction)) :
    pass2Checked groups
      = some (groups.filterMap fun kg => processGroup2 kg.2) := by
  rw [pass2Checked]
  suffices h : ∀ (gs : List (String × List DbTransaction))
      (acc : List RecurringTransaction),
      gs.foldl
          (fun acc kg =>
            match acc with
            | none => none
            | some rs =>
              match processGroup2Checked kg.2 with
              | none => none
              | some none => some rs
              | some (some r) => some (rs ++ [r]))
          (some acc)
        = some (acc ++ gs.filterMap fun kg => processGroup2 kg.2) by
    rw [h groups []]
    simp
  intro gs
  induction gs with
  | nil => intro acc; simp
  | cons kg rest ih =>
    intro acc
    rw [List.foldl_cons, processGroup2Checked_eq kg.2]
    cases hp : processGroup2 kg.2 with
    | none =>
      simp only [List.filterMap_cons, hp]
      exact ih acc
    | some r =>
      simp only [List.filterMap_cons, hp]
      exact (ih (acc ++ [r])).trans (by simp)

/-- Claim C10: in both passes the relative-deviation division only ever
happens after the `meanAmount < 0.01` guard has passed, so the divisor is
at least `0.01` and never zero: the division-checked detector never
reaches its error branch and agrees with the detector everywhere. -/
theorem claim_c10_divisor_guarded (transactions : List DbTransaction) :
    detectRecurringTransactionsChecked transactions
      = some (detectRecurringTransactions transactions) := by
  simp only [detectRecurringTransactionsChecked, detectRecurringTransactions]
  rw [pass1Checked_eq]
  dsimp only
  rw [pass2Checked_eq]
